import Mathlib

/-!
Verification of the incremental log-processing pipeline of `ona-bot`
(`src/ona-bot/structure.py`) against its specification.

The development shallowly embeds the pipeline:

* JSON values are modelled by the inductive `Json`; Python's `json.dumps`
  (with its default `", "` / `": "` separators) is `Json.dumps`, and
  `dict.get` is `Json.get` / `lookupField`.
* Python string comparison is lexicographic on code points, embedded by
  `ltChars` / `strLtB` / `strLeB` over `String.data` with `Char.toNat`.
* `parse_with_llm` is embedded as `parse_with_llm`, taking the decoded
  JSON of the model response (`none` when `json.loads` would raise).
* `make_workout_id` is embedded as `make_workout_id`; the external
  count query `get_workouts_count_for_date` is abstracted as a function
  `String → Nat` giving the store's count for a date, and the f-string
  `f"{serial:03d}"` is `pad3` (decimal digits left-padded with zeros to
  width 3).
* The driver `main` is embedded as `pipelineMain`, a state-passing
  interpreter over an `Env` oracle that fixes the outcome of every
  external call (model backend, audit appends, count queries).  It
  records every store write as an `Event` and reports abnormal
  termination through `Crash`.
-/

/-- JSON values, as produced by `json.loads` on the model output. -/
inductive Json where
  | null
  | bool (b : Bool)
  | num (n : Int)
  | str (s : String)
  | arr (elems : List Json)
  | obj (fields : List (String × Json))

/-- First binding of a key in a JSON object's field list (Python `dict` lookup). -/
def lookupField : List (String × Json) → String → Option Json
  | [], _ => none
  | (k, v) :: rest, key => if k = key then some v else lookupField rest key

/-- Python `obj.get(key)`: `none` when the key is absent (or the value is not a dict). -/
def Json.get (j : Json) (key : String) : Option Json :=
  match j with
  | .obj fields => lookupField fields key
  | _ => none

mutual
/-- Python `json.dumps(obj, ensure_ascii=False)` with default separators. -/
def Json.dumps : Json → String
  | .null => "null"
  | .bool true => "true"
  | .bool false => "false"
  | .num n => toString n
  | .str s => "\x22" ++ s ++ "\x22"
  | .arr es => "[" ++ dumpsElems es ++ "]"
  | .obj fs => "\x7b" ++ dumpsFields fs ++ "\x7d"

/-- Comma-joined serialization of a JSON array's elements. -/
def dumpsElems : List Json → String
  | [] => ""
  | [j] => Json.dumps j
  | j :: rest => Json.dumps j ++ ", " ++ dumpsElems rest

/-- Comma-joined serialization of a JSON object's fields. -/
def dumpsFields : List (String × Json) → String
  | [] => ""
  | [(k, v)] => "\x22" ++ k ++ "\x22: " ++ Json.dumps v
  | (k, v) :: rest => "\x22" ++ k ++ "\x22: " ++ Json.dumps v ++ ", " ++ dumpsFields rest
end

/-- The driver's serialized error payload: `json.dumps({"error": str(e)})`. -/
def errPayload (msg : String) : String :=
  Json.dumps (.obj [("error", .str msg)])

/-- Embedding of `parse_with_llm` (structure.py:93-105), applied to the decoded
JSON of the model response text.  `none` means the text is not valid JSON
(`json.loads` raises, a `ParseError` of this call); a non-object value makes
`obj.get` raise (`AttributeError`).  On an object it returns the canonical
re-serialization `json.dumps(obj)` together with `obj.get("status", "needs_review")`. -/
def parse_with_llm : Option Json → Except String (String × Json)
  | none => .error "ParseError"
  | some (.obj fs) =>
      .ok (Json.dumps (.obj fs), (lookupField fs "status").getD (.str "needs_review"))
  | some _ => .error "AttributeError"

/-! ### Python string comparison

Python compares strings lexicographically by code point; `ltChars` is that
order on the underlying character lists, and `strLeB a b` embeds the
driver's `ts <= last_ts` (in a total order, `a <= b` iff not `b < a`). -/

/-- Lexicographic strict comparison of character lists by code point. -/
def ltChars : List Char → List Char → Bool
  | [], [] => false
  | [], _ :: _ => true
  | _ :: _, [] => false
  | a :: as, b :: bs =>
      if a.toNat < b.toNat then true
      else if b.toNat < a.toNat then false
      else ltChars as bs

/-- Python `a < b` on strings. -/
def strLtB (a b : String) : Bool := ltChars a.data b.data

/-- Python `a <= b` on strings. -/
def strLeB (a b : String) : Bool := !(strLtB b a)

/-- Python `a < b` on strings, as a proposition. -/
def strLt (a b : String) : Prop := strLtB a b = true

/-- Python `a <= b` on strings, as a proposition. -/
def strLe (a b : String) : Prop := strLeB a b = true

instance (a b : String) : Decidable (strLt a b) := by unfold strLt; infer_instance

instance (a b : String) : Decidable (strLe a b) := by unfold strLe; infer_instance

/-! ### Workout id allocation -/

/-- Decimal digit characters of a natural number (most significant first),
`'0'` for zero: the digits Python's `"%d"` formatting produces. -/
def decChars (n : Nat) : List Char :=
  if n = 0 then ['0'] else ((Nat.digits 10 n).map Nat.digitChar).reverse

/-- Python `f"{n:03d}"`: decimal digits left-padded with `'0'` to width 3. -/
def pad3 (n : Nat) : String :=
  ⟨List.replicate (3 - (decChars n).length) '0' ++ decChars n⟩

/-- Python `date_iso.replace("-", "")`: removing every dash. -/
def removeDashes (s : String) : String :=
  ⟨s.data.filter (fun c => !(c = '-' : Bool))⟩

/-- Embedding of `make_workout_id` (structure.py:160-164).  `store date` is the
count returned by `get_workouts_count_for_date(date)` (structure.py:112-122). -/
def make_workout_id (store : String → Nat) (date_iso : String) : String :=
  let yyyymmdd := removeDashes date_iso
  let count := store date_iso
  let serial := count + 1
  yyyymmdd ++ "-" ++ pad3 serial

/-- The id allocated by the k-th of a sequence of allocations for one date,
against a store whose per-date count is accurate (k prior workouts). -/
def allocSeq (date_iso : String) (k : Nat) : String :=
  make_workout_id (fun _ => k) date_iso

/-! ### The pipeline driver -/

/-- One fetched raw entry, with the driver's `r.get(key, "")` defaults
already applied (a missing key is the empty string). -/
structure RawRow where
  timestamp : String
  user_id : String
  raw_text : String

/-- Sort key order of `sorted(rows, key=lambda r: r.get("timestamp", ""))`. -/
def rowLe (a b : RawRow) : Prop := strLeB a.timestamp b.timestamp = true

instance (a b : RawRow) : Decidable (rowLe a b) := by unfold rowLe; infer_instance

/-- Oracle fixing the outcome of every external call of one run.
Calls are keyed by the entry's position in the sorted row list. -/
structure Env where
  /-- Outcome of the model backend call plus `json.loads` for entry `i`:
  `.error m` = the API call raised `m`; `.ok none` = the response text is
  not valid JSON; `.ok (some j)` = it decodes to `j`. -/
  llm : Nat → Except String (Option Json)
  /-- `some m`: the try-block `append_parsed` for entry `i` raises `m`;
  `none`: it succeeds (structure.py:191). -/
  appendParsedFail : Nat → Option String
  /-- Whether the except-block `append_parsed(..., "error")` for entry `i`
  succeeds (structure.py:195); if not, the exception escapes `main`. -/
  errAppendOk : Nat → Bool
  /-- Store count returned by `get_workouts_by_date` for a date. -/
  count : String → Nat

/-- One write against the external store. -/
inductive Event where
  /-- `append_parsed(timestamp, user_id, raw_text, parsed_json, status)`. -/
  | audit (ts user raw pj : String) (status : Json)
  /-- `append_workout_row(workout_id, w)`. -/
  | header (workout_id : String) (w : Json)
  /-- `append_activity_rows(workout_id, date_iso, activities)`. -/
  | acts (workout_id date : String) (activities : List Json)
  /-- `save_state({"last_timestamp": v})`. -/
  | save (last_timestamp : String)

/-- Abnormal termination of `main`. -/
inductive Crash where
  /-- `parsed_json` referenced though never assigned (structure.py:207). -/
  | nameError
  /-- `obj[key]` on a dict missing `key`. -/
  | keyError (key : String)
  /-- Operation on a value of the wrong type (e.g. `.replace` on a non-string). -/
  | typeError
  /-- An uncaught exception re-raised out of the per-entry loop. -/
  | raised (msg : String)
deriving DecidableEq

/-- The driver's mutable state during the per-entry loop. -/
structure LoopState where
  /-- Position of the next row in the sorted list (oracle key). -/
  idx : Nat
  /-- The in-memory checkpoint candidate `last_ts`. -/
  last_ts : String
  /-- `processed_any`. -/
  processed : Bool
  /-- The object behind the latest assignment of `parsed_json`
  (`none` = the variable is still unbound). -/
  lastParsed : Option Json
  /-- Store writes so far, oldest first. -/
  events : List Event

/-- The per-entry loop of `main` (structure.py:178-198).  Returns the final
state and, when the except-block `append_parsed` itself raises, the escaping
exception. -/
def loop (env : Env) : List RawRow → LoopState → LoopState × Option Crash
  | [], s => (s, none)
  | r :: rest, s =>
    let ts := r.timestamp
    if ts = "" then
      loop env rest { s with idx := s.idx + 1 }
    else if s.last_ts ≠ "" ∧ strLeB ts s.last_ts = true then
      loop env rest { s with idx := s.idx + 1 }
    else
      match (match env.llm s.idx with
             | .error m => .error m
             | .ok d => parse_with_llm d : Except String (String × Json)) with
      | .ok (pj, status) =>
        let obj := (match env.llm s.idx with | .ok d => d | .error _ => none).getD .null
        match env.appendParsedFail s.idx with
        | none =>
          loop env rest
            ⟨s.idx + 1, ts, true, some obj,
             s.events ++ [.audit ts r.user_id r.raw_text pj status]⟩
        | some m =>
          if env.errAppendOk s.idx then
            loop env rest
              ⟨s.idx + 1, ts, true, some obj,
               s.events ++ [.audit ts r.user_id r.raw_text (errPayload m) (.str "error")]⟩
          else
            ({ s with lastParsed := some obj }, some (.raised m))
      | .error m =>
        if env.errAppendOk s.idx then
          loop env rest
            ⟨s.idx + 1, ts, true, s.lastParsed,
             s.events ++ [.audit ts r.user_id r.raw_text (errPayload m) (.str "error")]⟩
        else
          (s, some (.raised m))

/-- The post-loop block of `main` (structure.py:206-215): re-load the most
recent `parsed_json`, and when its status is `"ok"` allocate an id and write
the workout header and activity rows. -/
def postBlock (env : Env) (lastParsed : Option Json) : List Event × Option Crash :=
  match lastParsed with
  | none => ([], some .nameError)
  | some obj =>
    match (obj.get "status").getD (.str "needs_review") with
    | .str st =>
      if st = "ok" then
        match obj.get "workout" with
        | none => ([], some (.keyError "workout"))
        | some w =>
          match w with
          | .obj _ =>
            match w.get "date" with
            | some (.str d) =>
              let workout_id := make_workout_id env.count d
              match (obj.get "activities").getD (.arr []) with
              | .arr activities =>
                ([.header workout_id w, .acts workout_id d activities], none)
              | _ => ([.header workout_id w], some .typeError)
            | some _ => ([], some .typeError)
            | none => ([], some (.keyError "date"))
          | _ => ([], some .typeError)
      else ([], none)
    | _ => ([], none)

/-- Result of one driver run: the store writes in order, the final summary
line printed by the run, and how (if at all) the run crashed. -/
structure RunResult where
  events : List Event
  report : String
  crash : Option Crash

/-- Embedding of `main` (structure.py:166-215), applied to the loaded
checkpoint value `last0` (`state.get("last_timestamp", "")`) and the batch
returned by `fetch_recent_raw`. -/
def pipelineMain (env : Env) (last0 : String) (rows : List RawRow) : RunResult :=
  let rows_sorted := rows.insertionSort rowLe
  let run := loop env rows_sorted ⟨0, last0, false, none, []⟩
  match run.2 with
  | some c => ⟨run.1.events, "", some c⟩
  | none =>
    let s := run.1
    let events1 :=
      if s.processed then s.events ++ [.save s.last_ts] else s.events
    let report :=
      if s.processed then "Done. Last processed timestamp: " ++ s.last_ts
      else "Nothing new to process."
    let post := postBlock env s.lastParsed
    ⟨events1 ++ post.1, report, post.2⟩

/-! ### Observables of a run -/

/-- Timestamps of the audit rows written, in write order. -/
def auditTimestamps (es : List Event) : List String :=
  es.filterMap fun e =>
    match e with
    | .audit ts _ _ _ _ => some ts
    | _ => none

/-- Checkpoint values persisted by `save_state`, in write order. -/
def savedCheckpoints (es : List Event) : List String :=
  es.filterMap fun e =>
    match e with
    | .save v => some v
    | _ => none

/-- Workout ids of the header rows written, in write order. -/
def headerIds (es : List Event) : List String :=
  es.filterMap fun e =>
    match e with
    | .header wid _ => some wid
    | _ => none

/-- The timestamps the driver handles, given the loaded checkpoint and the
timestamps of the sorted batch: the reference recursion mirroring the
eligibility gate `if not ts: continue` / `if last_ts and ts <= last_ts:
continue` with the running candidate. -/
def handledTs (c : String) : List String → List String
  | [] => []
  | t :: rest =>
    if t = "" then handledTs c rest
    else if c ≠ "" ∧ strLeB t c = true then handledTs c rest
    else t :: handledTs t rest

/-! ### Order facts for the embedded string comparison -/

theorem charEq_of_toNat {a b : Char} (h : a.toNat = b.toNat) : a = b :=
  Char.ext (UInt32.ext h)

theorem ltChars_nil_right : ∀ l : List Char, ltChars l [] = false
  | [] => rfl
  | _ :: _ => rfl

theorem ltChars_nil_left : ∀ l : List Char, l ≠ [] → ltChars [] l = true
  | [], h => absurd rfl h
  | _ :: _, _ => rfl

theorem ltChars_cons (x y : Char) (xs ys : List Char) :
    ltChars (x :: xs) (y :: ys) = true ↔
      (x.toNat < y.toNat ∨ (x.toNat = y.toNat ∧ ltChars xs ys = true)) := by
  by_cases h1 : x.toNat < y.toNat <;> by_cases h2 : y.toNat < x.toNat <;>
    simp [ltChars, h1, h2] <;> omega

theorem ltChars_irrefl : ∀ l : List Char, ltChars l l = false
  | [] => rfl
  | a :: as => by
      rw [Bool.eq_false_iff]
      intro h
      rw [ltChars_cons] at h
      rcases h with h | ⟨-, h⟩
      · omega
      · rw [ltChars_irrefl as] at h
        cases h

theorem ltChars_trans :
    ∀ a b c : List Char, ltChars a b = true → ltChars b c = true → ltChars a c = true
  | [], [], _, h1, _ => by rw [ltChars_nil_right] at h1; cases h1
  | [], _ :: _, [], _, h2 => by rw [ltChars_nil_right] at h2; cases h2
  | [], _ :: _, _ :: _, _, _ => rfl
  | _ :: _, [], _, h1, _ => by rw [ltChars_nil_right] at h1; cases h1
  | _ :: _, _ :: _, [], _, h2 => by rw [ltChars_nil_right] at h2; cases h2
  | x :: xs, y :: ys, z :: zs, h1, h2 => by
      rw [ltChars_cons] at h1 h2 ⊢
      rcases h1 with h1 | ⟨e1, h1⟩
      · rcases h2 with h2 | ⟨e2, h2⟩
        · exact Or.inl (by omega)
        · exact Or.inl (by omega)
      · rcases h2 with h2 | ⟨e2, h2⟩
        · exact Or.inl (by omega)
        · exact Or.inr ⟨by omega, ltChars_trans xs ys zs h1 h2⟩

theorem ltChars_asymm {a b : List Char} (h : ltChars a b = true) : ltChars b a = false := by
  rw [Bool.eq_false_iff]
  intro h2
  have := ltChars_trans a b a h h2
  rw [ltChars_irrefl] at this
  cases this

theorem ltChars_connex :
    ∀ a b : List Char, ltChars a b = false → ltChars b a = false → a = b
  | [], [], _, _ => rfl
  | [], c :: cs, h1, _ => by rw [ltChars_nil_left (c :: cs) (by simp)] at h1; cases h1
  | c :: cs, [], _, h2 => by rw [ltChars_nil_left (c :: cs) (by simp)] at h2; cases h2
  | x :: xs, y :: ys, h1, h2 => by
      have hxy : ¬ x.toNat < y.toNat := fun h => by
        rw [(ltChars_cons x y xs ys).mpr (Or.inl h)] at h1; cases h1
      have hyx : ¬ y.toNat < x.toNat := fun h => by
        rw [(ltChars_cons y x ys xs).mpr (Or.inl h)] at h2; cases h2
      have he : x.toNat = y.toNat := by omega
      have hxs : ltChars xs ys = false := by
        cases hc : ltChars xs ys
        · rfl
        · rw [(ltChars_cons x y xs ys).mpr (Or.inr ⟨he, hc⟩)] at h1; cases h1
      have hys : ltChars ys xs = false := by
        cases hc : ltChars ys xs
        · rfl
        · rw [(ltChars_cons y x ys xs).mpr (Or.inr ⟨he.symm, hc⟩)] at h2; cases h2
      rw [charEq_of_toNat he, ltChars_connex xs ys hxs hys]

theorem strLt_irrefl (s : String) : ¬ strLt s s := by
  simp [strLt, strLtB, ltChars_irrefl]

theorem strLt_trans {a b c : String} (h1 : strLt a b) (h2 : strLt b c) : strLt a c :=
  ltChars_trans a.data b.data c.data h1 h2

theorem strLt_asymm {a b : String} (h : strLt a b) : ¬ strLt b a := by
  simp only [strLt, strLtB]
  rw [ltChars_asymm h]
  simp

theorem strLt_ne {a b : String} (h : strLt a b) : a ≠ b := by
  rintro rfl
  exact strLt_irrefl a h

theorem bool_eq_false {b : Bool} (h : ¬ b = true) : b = false := by
  cases b
  · rfl
  · exact absurd rfl h

theorem str_eq_of_not_lt {a b : String} (h1 : ¬ strLt a b) (h2 : ¬ strLt b a) : a = b :=
  String.ext (ltChars_connex a.data b.data (bool_eq_false h1) (bool_eq_false h2))

theorem strLe_iff_not_lt {a b : String} : strLe a b ↔ ¬ strLt b a := by
  simp [strLe, strLeB, strLt, Bool.not_eq_true']

theorem strLe_refl (s : String) : strLe s s :=
  strLe_iff_not_lt.mpr (strLt_irrefl s)

theorem strLe_of_lt {a b : String} (h : strLt a b) : strLe a b :=
  strLe_iff_not_lt.mpr (strLt_asymm h)

theorem strLt_of_not_le {a b : String} (h : ¬ strLe a b) : strLt b a := by
  by_contra h2
  exact h (strLe_iff_not_lt.mpr h2)

theorem strLt_of_le_of_lt {a b c : String} (h1 : strLe a b) (h2 : strLt b c) : strLt a c := by
  by_cases hab : strLt a b
  · exact strLt_trans hab h2
  · have hba : ¬ strLt b a := strLe_iff_not_lt.mp h1
    have hve : a = b := str_eq_of_not_lt hab hba
    rwa [hve]

theorem strLe_trans {a b c : String} (h1 : strLe a b) (h2 : strLe b c) : strLe a c := by
  rw [strLe_iff_not_lt] at h1 h2 ⊢
  intro hca
  by_cases hbc : strLt b c
  · exact h1 (strLt_trans hbc hca)
  · have hve : b = c := str_eq_of_not_lt hbc h2
    exact h1 (by rwa [hve])

theorem strLe_antisymm {a b : String} (h1 : strLe a b) (h2 : strLe b a) : a = b :=
  str_eq_of_not_lt (strLe_iff_not_lt.mp h2) (strLe_iff_not_lt.mp h1)

theorem strLe_total (a b : String) : strLe a b ∨ strLe b a := by
  by_cases h : strLt b a
  · exact Or.inr (strLe_of_lt h)
  · exact Or.inl (strLe_iff_not_lt.mpr h)

theorem empty_strLt {t : String} (h : t ≠ "") : strLt "" t := by
  apply ltChars_nil_left
  intro hd
  exact h (String.ext hd)

theorem strLt_empty_false (t : String) : ¬ strLt t "" := by
  simp [strLt, strLtB, ltChars_nil_right]

theorem gate_not_skip_iff {c t : String} :
    ¬(c ≠ "" ∧ strLeB t c = true) ↔ (c = "" ∨ strLt c t) := by
  constructor
  · intro h
    by_cases hc : c = ""
    · exact Or.inl hc
    · refine Or.inr (strLt_of_not_le fun hle => h ⟨hc, hle⟩)
  · rintro (h | h) ⟨hc, hle⟩
    · exact hc h
    · exact strLe_iff_not_lt.mp hle h

instance : IsTotal RawRow rowLe :=
  ⟨fun a b => strLe_total a.timestamp b.timestamp⟩

instance : IsTrans RawRow rowLe :=
  ⟨fun _ _ _ => strLe_trans⟩

instance : IsAntisymm String strLe :=
  ⟨fun _ _ => strLe_antisymm⟩

instance : IsTrans String strLe :=
  ⟨fun _ _ _ => strLe_trans⟩

instance : IsTotal String strLe :=
  ⟨strLe_total⟩

/-! ### Properties of the eligibility gate -/

theorem handledTs_mem_facts (l : List String) :
    ∀ c t, t ∈ handledTs c l → t ≠ "" ∧ (c ≠ "" → strLt c t) := by
  induction l with
  | nil => intro c t h; simp [handledTs] at h
  | cons a rest ih =>
    intro c t h
    by_cases h1 : a = ""
    · simp only [handledTs, if_pos h1] at h
      exact ih c t h
    · by_cases h2 : c ≠ "" ∧ strLeB a c = true
      · simp only [handledTs, if_neg h1, if_pos h2] at h
        exact ih c t h
      · simp only [handledTs, if_neg h1, if_neg h2] at h
        rcases List.mem_cons.mp h with rfl | hmem
        · exact ⟨h1, fun hc => (gate_not_skip_iff.mp h2).resolve_left hc⟩
        · obtain ⟨hne, hlt⟩ := ih a t hmem
          refine ⟨hne, fun hc => ?_⟩
          have hat : strLt a t := hlt h1
          rcases gate_not_skip_iff.mp h2 with hc' | hc'
          · exact absurd hc' hc
          · exact strLt_trans hc' hat

theorem handledTs_pairwise (l : List String) :
    ∀ c, List.Pairwise strLt (handledTs c l) := by
  induction l with
  | nil => intro c; simp [handledTs]
  | cons a rest ih =>
    intro c
    by_cases h1 : a = ""
    · simpa only [handledTs, if_pos h1] using ih c
    · by_cases h2 : c ≠ "" ∧ strLeB a c = true
      · simpa only [handledTs, if_neg h1, if_pos h2] using ih c
      · simp only [handledTs, if_neg h1, if_neg h2]
        exact List.Pairwise.cons
          (fun t ht => (handledTs_mem_facts rest a t ht).2 h1) (ih a)

theorem handledTs_mem_iff (l : List String) :
    ∀ c t, List.Pairwise strLe l →
      (t ∈ handledTs c l ↔ t ≠ "" ∧ (c = "" ∨ strLt c t) ∧ t ∈ l) := by
  induction l with
  | nil => intro c t _; simp [handledTs]
  | cons a rest ih =>
    intro c t hp
    obtain ⟨ha, hrest⟩ := List.pairwise_cons.mp hp
    by_cases h1 : a = ""
    · simp only [handledTs, if_pos h1]
      rw [ih c t hrest]
      constructor
      · rintro ⟨hne, hc, hmem⟩
        exact ⟨hne, hc, List.mem_cons_of_mem a hmem⟩
      · rintro ⟨hne, hc, hmem⟩
        rcases List.mem_cons.mp hmem with rfl | hmem
        · exact absurd h1 hne
        · exact ⟨hne, hc, hmem⟩
    · by_cases h2 : c ≠ "" ∧ strLeB a c = true
      · simp only [handledTs, if_neg h1, if_pos h2]
        rw [ih c t hrest]
        constructor
        · rintro ⟨hne, hc, hmem⟩
          exact ⟨hne, hc, List.mem_cons_of_mem a hmem⟩
        · rintro ⟨hne, hc, hmem⟩
          rcases List.mem_cons.mp hmem with rfl | hmem
          · rcases hc with hc0 | hlt
            · exact absurd hc0 h2.1
            · exact absurd (strLt_of_le_of_lt h2.2 hlt) (strLt_irrefl t)
          · exact ⟨hne, hc, hmem⟩
      · simp only [handledTs, if_neg h1, if_neg h2]
        rw [List.mem_cons, ih a t hrest]
        constructor
        · rintro (rfl | ⟨hne, hcat, hmem⟩)
          · exact ⟨h1, gate_not_skip_iff.mp h2, List.mem_cons_self t rest⟩
          · refine ⟨hne, ?_, List.mem_cons_of_mem a hmem⟩
            rcases hcat with ha0 | hlt
            · exact absurd ha0 h1
            · rcases gate_not_skip_iff.mp h2 with hc0 | hca
              · exact Or.inl hc0
              · exact Or.inr (strLt_trans hca hlt)
        · rintro ⟨hne, hc, hmem⟩
          rcases List.mem_cons.mp hmem with rfl | hmem
          · exact Or.inl rfl
          · by_cases hta : t = a
            · exact Or.inl hta
            · have hat : strLe a t := ha t hmem
              have hlt : strLt a t := by
                by_cases hlt : strLt a t
                · exact hlt
                · exact absurd (str_eq_of_not_lt hlt (strLe_iff_not_lt.mp hat)).symm hta
              exact Or.inr ⟨hne, Or.inr hlt, hmem⟩

theorem handledTs_eq_nil (l : List String) :
    ∀ c, (∀ t ∈ l, t = "" ∨ (c ≠ "" ∧ strLe t c)) → handledTs c l = [] := by
  induction l with
  | nil => intro c _; rfl
  | cons a rest ih =>
    intro c hall
    by_cases h1 : a = ""
    · simp only [handledTs, if_pos h1]
      exact ih c (fun t ht => hall t (List.mem_cons_of_mem a ht))
    · have h2 : c ≠ "" ∧ strLeB a c = true := by
        rcases hall a (List.mem_cons_self a rest) with h | h
        · exact absurd h h1
        · exact h
      simp only [handledTs, if_neg h1, if_pos h2]
      exact ih c (fun t ht => hall t (List.mem_cons_of_mem a ht))

theorem getLastD_mem : ∀ (l : List String) (d : String), l ≠ [] → l.getLastD d ∈ l
  | [], _, h => absurd rfl h
  | [a], d, _ => by simp
  | a :: b :: t, d, _ => by
      rw [List.getLastD_cons]
      exact List.mem_cons_of_mem a (getLastD_mem (b :: t) a (by simp))

theorem le_getLastD_of_pairwise :
    ∀ (l : List String) (d : String), List.Pairwise strLt l → ∀ t ∈ l, strLe t (l.getLastD d)
  | [], _, _, t, ht => absurd ht (by simp)
  | a :: rest, d, hp, t, ht => by
      obtain ⟨ha, hrest⟩ := List.pairwise_cons.mp hp
      rw [List.getLastD_cons]
      rcases List.mem_cons.mp ht with rfl | hmem
      · rcases hre : rest with _ | ⟨b, bt⟩
        · exact strLe_refl t
        · have hm : ((b :: bt).getLastD t) ∈ (b :: bt) := getLastD_mem _ _ (by simp)
          exact strLe_of_lt (ha _ (hre ▸ hm))
      · exact le_getLastD_of_pairwise rest a hrest t hmem

theorem getLast?_eq_getLastD {α : Type} :
    ∀ (l : List α) (d : α), l ≠ [] → l.getLast? = some (l.getLastD d)
  | [], _, h => absurd rfl h
  | [a], _, _ => rfl
  | a :: b :: t, d, _ => by
      rw [List.getLastD_cons, List.getLast?_cons_cons]
      exact getLast?_eq_getLastD (b :: t) a (by simp)

/-! ### One-step unfolding of the per-entry loop -/

theorem loop_skip_empty (env : Env) (r : RawRow) (rest : List RawRow) (s : LoopState)
    (h1 : r.timestamp = "") :
    loop env (r :: rest) s = loop env rest { s with idx := s.idx + 1 } := by
  simp [loop, h1]

theorem loop_skip_le (env : Env) (r : RawRow) (rest : List RawRow) (s : LoopState)
    (h2 : s.last_ts ≠ "" ∧ strLeB r.timestamp s.last_ts = true) :
    loop env (r :: rest) s = loop env rest { s with idx := s.idx + 1 } := by
  by_cases h1 : r.timestamp = ""
  · simp [loop, h1]
  · simp [loop, h1, h2]

theorem loop_handle_ok (env : Env) (r : RawRow) (rest : List RawRow) (s : LoopState)
    (fs : List (String × Json))
    (h1 : ¬ r.timestamp = "") (h2 : ¬(s.last_ts ≠ "" ∧ strLeB r.timestamp s.last_ts = true))
    (hllm : env.llm s.idx = .ok (some (.obj fs)))
    (happ : env.appendParsedFail s.idx = none) :
    loop env (r :: rest) s = loop env rest
      ⟨s.idx + 1, r.timestamp, true, some (.obj fs),
       s.events ++ [.audit r.timestamp r.user_id r.raw_text (Json.dumps (.obj fs))
         ((lookupField fs "status").getD (.str "needs_review"))]⟩ := by
  simp [loop, h1, h2, hllm, happ, parse_with_llm]

theorem loop_handle_appendFail (env : Env) (r : RawRow) (rest : List RawRow) (s : LoopState)
    (fs : List (String × Json)) (m : String)
    (h1 : ¬ r.timestamp = "") (h2 : ¬(s.last_ts ≠ "" ∧ strLeB r.timestamp s.last_ts = true))
    (hllm : env.llm s.idx = .ok (some (.obj fs)))
    (happ : env.appendParsedFail s.idx = some m)
    (hE : env.errAppendOk s.idx = true) :
    loop env (r :: rest) s = loop env rest
      ⟨s.idx + 1, r.timestamp, true, some (.obj fs),
       s.events ++ [.audit r.timestamp r.user_id r.raw_text (errPayload m) (.str "error")]⟩ := by
  simp [loop, h1, h2, hllm, happ, hE, parse_with_llm]

theorem loop_handle_llmerr (env : Env) (r : RawRow) (rest : List RawRow) (s : LoopState)
    (m : String)
    (h1 : ¬ r.timestamp = "") (h2 : ¬(s.last_ts ≠ "" ∧ strLeB r.timestamp s.last_ts = true))
    (hllm : env.llm s.idx = .error m)
    (hE : env.errAppendOk s.idx = true) :
    loop env (r :: rest) s = loop env rest
      ⟨s.idx + 1, r.timestamp, true, s.lastParsed,
       s.events ++ [.audit r.timestamp r.user_id r.raw_text (errPayload m) (.str "error")]⟩ := by
  simp [loop, h1, h2, hllm, hE]

theorem loop_handle_perr (env : Env) (r : RawRow) (rest : List RawRow) (s : LoopState)
    (d : Option Json) (m : String)
    (h1 : ¬ r.timestamp = "") (h2 : ¬(s.last_ts ≠ "" ∧ strLeB r.timestamp s.last_ts = true))
    (hllm : env.llm s.idx = .ok d)
    (hpe : parse_with_llm d = .error m)
    (hE : env.errAppendOk s.idx = true) :
    loop env (r :: rest) s = loop env rest
      ⟨s.idx + 1, r.timestamp, true, s.lastParsed,
       s.events ++ [.audit r.timestamp r.user_id r.raw_text (errPayload m) (.str "error")]⟩ := by
  simp [loop, h1, h2, hllm, hpe, hE]

/-! ### Event bookkeeping -/

theorem auditTimestamps_append (es fs : List Event) :
    auditTimestamps (es ++ fs) = auditTimestamps es ++ auditTimestamps fs :=
  List.filterMap_append es fs _

theorem savedCheckpoints_append (es fs : List Event) :
    savedCheckpoints (es ++ fs) = savedCheckpoints es ++ savedCheckpoints fs :=
  List.filterMap_append es fs _

theorem headerIds_append (es fs : List Event) :
    headerIds (es ++ fs) = headerIds es ++ headerIds fs :=
  List.filterMap_append es fs _

theorem auditTimestamps_audit (ts user raw pj : String) (st : Json) :
    auditTimestamps [.audit ts user raw pj st] = [ts] := rfl

theorem savedCheckpoints_audit (ts user raw pj : String) (st : Json) :
    savedCheckpoints [.audit ts user raw pj st] = [] := rfl

theorem headerIds_audit (ts user raw pj : String) (st : Json) :
    headerIds [.audit ts user raw pj st] = [] := rfl

theorem auditTimestamps_save_cons (v : String) (l : List Event) :
    auditTimestamps (Event.save v :: l) = auditTimestamps l := rfl

theorem savedCheckpoints_save_cons (v : String) (l : List Event) :
    savedCheckpoints (Event.save v :: l) = v :: savedCheckpoints l := rfl

/-! ### The loop specification -/

theorem loop_spec (env : Env) (hA : ∀ i, env.errAppendOk i = true) :
    ∀ (l : List RawRow) (s : LoopState),
      (loop env l s).2 = none ∧
      auditTimestamps (loop env l s).1.events
        = auditTimestamps s.events ++ handledTs s.last_ts (l.map RawRow.timestamp) ∧
      savedCheckpoints (loop env l s).1.events = savedCheckpoints s.events ∧
      headerIds (loop env l s).1.events = headerIds s.events ∧
      (loop env l s).1.last_ts
        = (handledTs s.last_ts (l.map RawRow.timestamp)).getLastD s.last_ts ∧
      (loop env l s).1.processed
        = (s.processed || !(handledTs s.last_ts (l.map RawRow.timestamp)).isEmpty) := by
  intro l
  induction l with
  | nil =>
    intro s
    simp [loop, handledTs]
  | cons r rest ih =>
    intro s
    by_cases h1 : r.timestamp = ""
    · rw [loop_skip_empty env r rest s h1]
      have e1 : handledTs s.last_ts (List.map RawRow.timestamp (r :: rest))
          = handledTs s.last_ts (List.map RawRow.timestamp rest) := by
        simp [handledTs, h1]
      rw [e1]
      exact ih { s with idx := s.idx + 1 }
    · by_cases h2 : s.last_ts ≠ "" ∧ strLeB r.timestamp s.last_ts = true
      · rw [loop_skip_le env r rest s h2]
        have e1 : handledTs s.last_ts (List.map RawRow.timestamp (r :: rest))
            = handledTs s.last_ts (List.map RawRow.timestamp rest) := by
          simp only [List.map_cons, handledTs, if_neg h1, if_pos h2]
        rw [e1]
        exact ih { s with idx := s.idx + 1 }
      · have e1 : handledTs s.last_ts (List.map RawRow.timestamp (r :: rest))
            = r.timestamp :: handledTs r.timestamp (List.map RawRow.timestamp rest) := by
          simp only [List.map_cons, handledTs, if_neg h1, if_neg h2]
        have hfin :
            ∀ lp : Option Json, ∀ ev : Event,
              auditTimestamps [ev] = [r.timestamp] →
              savedCheckpoints [ev] = [] →
              headerIds [ev] = [] →
              (loop env rest
                  ⟨s.idx + 1, r.timestamp, true, lp, s.events ++ [ev]⟩).2 = none ∧
              auditTimestamps (loop env rest
                  ⟨s.idx + 1, r.timestamp, true, lp, s.events ++ [ev]⟩).1.events
                = auditTimestamps s.events
                  ++ handledTs s.last_ts (List.map RawRow.timestamp (r :: rest)) ∧
              savedCheckpoints (loop env rest
                  ⟨s.idx + 1, r.timestamp, true, lp, s.events ++ [ev]⟩).1.events
                = savedCheckpoints s.events ∧
              headerIds (loop env rest
                  ⟨s.idx + 1, r.timestamp, true, lp, s.events ++ [ev]⟩).1.events
                = headerIds s.events ∧
              (loop env rest
                  ⟨s.idx + 1, r.timestamp, true, lp, s.events ++ [ev]⟩).1.last_ts
                = (handledTs s.last_ts
                    (List.map RawRow.timestamp (r :: rest))).getLastD s.last_ts ∧
              (loop env rest
                  ⟨s.idx + 1, r.timestamp, true, lp, s.events ++ [ev]⟩).1.processed
                = (s.processed
                    || !(handledTs s.last_ts
                          (List.map RawRow.timestamp (r :: rest))).isEmpty) := by
          intro lp ev hev1 hev2 hev3
          obtain ⟨ihc, iha, ihs, ihh, ihl, ihp⟩ :=
            ih ⟨s.idx + 1, r.timestamp, true, lp, s.events ++ [ev]⟩
          refine ⟨ihc, ?_, ?_, ?_, ?_, ?_⟩
          · rw [iha]
            simp only [auditTimestamps_append, hev1, e1, List.append_assoc,
              List.singleton_append]
          · rw [ihs]
            simp [savedCheckpoints_append, hev2]
          · rw [ihh]
            simp [headerIds_append, hev3]
          · rw [ihl, e1, List.getLastD_cons]
          · rw [ihp, e1]
            simp
        rcases henv : env.llm s.idx with m | d
        · rw [loop_handle_llmerr env r rest s m h1 h2 henv (hA s.idx)]
          exact hfin s.lastParsed _ rfl rfl rfl
        · rcases hd : d with _ | j
          · rw [hd] at henv
            rw [loop_handle_perr env r rest s none "ParseError" h1 h2 henv rfl
              (hA s.idx)]
            exact hfin s.lastParsed _ rfl rfl rfl
          · rcases hj : j with _ | b | n | st | es | fs
            · rw [hd, hj] at henv
              rw [loop_handle_perr env r rest s (some .null) "AttributeError" h1 h2 henv
                rfl (hA s.idx)]
              exact hfin s.lastParsed _ rfl rfl rfl
            · rw [hd, hj] at henv
              rw [loop_handle_perr env r rest s (some (.bool b)) "AttributeError" h1 h2
                henv rfl (hA s.idx)]
              exact hfin s.lastParsed _ rfl rfl rfl
            · rw [hd, hj] at henv
              rw [loop_handle_perr env r rest s (some (.num n)) "AttributeError" h1 h2
                henv rfl (hA s.idx)]
              exact hfin s.lastParsed _ rfl rfl rfl
            · rw [hd, hj] at henv
              rw [loop_handle_perr env r rest s (some (.str st)) "AttributeError" h1 h2
                henv rfl (hA s.idx)]
              exact hfin s.lastParsed _ rfl rfl rfl
            · rw [hd, hj] at henv
              rw [loop_handle_perr env r rest s (some (.arr es)) "AttributeError" h1 h2
                henv rfl (hA s.idx)]
              exact hfin s.lastParsed _ rfl rfl rfl
            · rw [hd, hj] at henv
              rcases happ : env.appendParsedFail s.idx with _ | m
              · rw [loop_handle_ok env r rest s fs h1 h2 henv happ]
                exact hfin (some (.obj fs)) _ rfl rfl rfl
              · rw [loop_handle_appendFail env r rest s fs m h1 h2 henv happ (hA s.idx)]
                exact hfin (some (.obj fs)) _ rfl rfl rfl

/-! ### The post-loop block writes no audit rows and no checkpoint -/

theorem postBlock_audits (env : Env) (lp : Option Json) :
    auditTimestamps (postBlock env lp).1 = [] := by
  rcases lp with _ | obj
  · rfl
  · unfold postBlock
    repeat' split
    all_goals rfl

theorem postBlock_saved (env : Env) (lp : Option Json) :
    savedCheckpoints (postBlock env lp).1 = [] := by
  rcases lp with _ | obj
  · rfl
  · unfold postBlock
    repeat' split
    all_goals rfl

/-! ### The driver specification -/

theorem main_spec (env : Env) (hA : ∀ i, env.errAppendOk i = true) (c : String)
    (rows : List RawRow) :
    auditTimestamps (pipelineMain env c rows).events
      = handledTs c ((rows.insertionSort rowLe).map RawRow.timestamp) ∧
    savedCheckpoints (pipelineMain env c rows).events
      = (if (handledTs c ((rows.insertionSort rowLe).map RawRow.timestamp)).isEmpty
         then []
         else [(handledTs c
                  ((rows.insertionSort rowLe).map RawRow.timestamp)).getLastD c]) ∧
    (pipelineMain env c rows).report
      = (if (handledTs c ((rows.insertionSort rowLe).map RawRow.timestamp)).isEmpty
         then "Nothing new to process."
         else "Done. Last processed timestamp: "
           ++ (handledTs c ((rows.insertionSort rowLe).map RawRow.timestamp)).getLastD c)
    := by
  obtain ⟨hc, ha, hs, hh, hl, hp⟩ :=
    loop_spec env hA (rows.insertionSort rowLe) ⟨0, c, false, none, []⟩
  have ha' : auditTimestamps
      (loop env (rows.insertionSort rowLe) ⟨0, c, false, none, []⟩).1.events
      = handledTs c ((rows.insertionSort rowLe).map RawRow.timestamp) := by
    simpa using ha
  have hs' : savedCheckpoints
      (loop env (rows.insertionSort rowLe) ⟨0, c, false, none, []⟩).1.events = [] := by
    simpa using hs
  have hp' : (loop env (rows.insertionSort rowLe) ⟨0, c, false, none, []⟩).1.processed
      = !(handledTs c ((rows.insertionSort rowLe).map RawRow.timestamp)).isEmpty := by
    simpa using hp
  unfold pipelineMain
  dsimp only
  rw [hc]
  rcases hemp : (handledTs c ((rows.insertionSort rowLe).map RawRow.timestamp)).isEmpty
    with _ | _
  · -- at least one entry handled: checkpoint saved
    refine ⟨?_, ?_, ?_⟩
    · simp [hp', hemp, auditTimestamps_append, ha', postBlock_audits,
        auditTimestamps_save_cons]
    · simp [hp', hemp, savedCheckpoints_append, hs', postBlock_saved, hl,
        savedCheckpoints_save_cons]
    · simp [hp', hemp, hl]
  · -- nothing handled: no checkpoint write
    refine ⟨?_, ?_, ?_⟩
    · simp [hp', hemp, auditTimestamps_append, ha', postBlock_audits]
    · simp [hp', hemp, savedCheckpoints_append, hs', postBlock_saved]
    · simp [hp', hemp]

/-- Every handled entry takes exactly one of the branches that append a
single audit event and advance the candidate checkpoint. -/
theorem loop_handle_shape (env : Env) (r : RawRow) (rest : List RawRow) (s : LoopState)
    (h1 : ¬ r.timestamp = "") (h2 : ¬(s.last_ts ≠ "" ∧ strLeB r.timestamp s.last_ts = true))
    (hE : env.errAppendOk s.idx = true) :
    ∃ lp pj st, loop env (r :: rest) s = loop env rest
      ⟨s.idx + 1, r.timestamp, true, lp,
       s.events ++ [.audit r.timestamp r.user_id r.raw_text pj st]⟩ := by
  rcases henv : env.llm s.idx with m | d
  · exact ⟨_, _, _, loop_handle_llmerr env r rest s m h1 h2 henv hE⟩
  · rcases hd : d with _ | j
    · rw [hd] at henv
      exact ⟨_, _, _, loop_handle_perr env r rest s none "ParseError" h1 h2 henv rfl hE⟩
    · rcases hj : j with _ | b | n | st | es | fs
      · rw [hd, hj] at henv
        exact ⟨_, _, _, loop_handle_perr env r rest s (some .null) "AttributeError"
          h1 h2 henv rfl hE⟩
      · rw [hd, hj] at henv
        exact ⟨_, _, _, loop_handle_perr env r rest s (some (.bool b)) "AttributeError"
          h1 h2 henv rfl hE⟩
      · rw [hd, hj] at henv
        exact ⟨_, _, _, loop_handle_perr env r rest s (some (.num n)) "AttributeError"
          h1 h2 henv rfl hE⟩
      · rw [hd, hj] at henv
        exact ⟨_, _, _, loop_handle_perr env r rest s (some (.str st)) "AttributeError"
          h1 h2 henv rfl hE⟩
      · rw [hd, hj] at henv
        exact ⟨_, _, _, loop_handle_perr env r rest s (some (.arr es)) "AttributeError"
          h1 h2 henv rfl hE⟩
      · rw [hd, hj] at henv
        rcases happ : env.appendParsedFail s.idx with _ | m
        · exact ⟨_, _, _, loop_handle_ok env r rest s fs h1 h2 henv happ⟩
        · exact ⟨_, _, _, loop_handle_appendFail env r rest s fs m h1 h2 henv happ hE⟩

/-- Every audit row the loop writes belongs to the first row of the list
bearing its timestamp, and its timestamp strictly exceeds the incoming
checkpoint candidate. -/
theorem loop_first (env : Env) (hA : ∀ i, env.errAppendOk i = true) :
    ∀ (l : List RawRow) (s : LoopState) (e : Event),
      e ∈ (loop env l s).1.events →
      e ∈ s.events ∨
      ∃ ts user raw pj st, e = .audit ts user raw pj st ∧ ts ≠ "" ∧
        (s.last_ts ≠ "" → strLt s.last_ts ts) ∧
        ∃ r, l.find? (fun x => decide (x.timestamp = ts)) = some r ∧
          r.timestamp = ts ∧ user = r.user_id ∧ raw = r.raw_text := by
  intro l
  induction l with
  | nil =>
    intro s e he
    simp only [loop] at he
    exact Or.inl he
  | cons r rest ih =>
    intro s e he
    by_cases h1 : r.timestamp = ""
    · rw [loop_skip_empty env r rest s h1] at he
      rcases ih _ e he with h | ⟨ts, user, raw, pj, st, heq, hne, hgt, rr, hfind, hts, hu, hr⟩
      · exact Or.inl h
      · refine Or.inr ⟨ts, user, raw, pj, st, heq, hne, hgt, rr, ?_, hts, hu, hr⟩
        rw [List.find?_cons_of_neg]
        · exact hfind
        · simp only [decide_eq_true_eq, h1]
          exact fun hc => hne hc.symm
    · by_cases h2 : s.last_ts ≠ "" ∧ strLeB r.timestamp s.last_ts = true
      · rw [loop_skip_le env r rest s h2] at he
        rcases ih _ e he with h | ⟨ts, user, raw, pj, st, heq, hne, hgt, rr, hfind, hts, hu, hr⟩
        · exact Or.inl h
        · refine Or.inr ⟨ts, user, raw, pj, st, heq, hne, hgt, rr, ?_, hts, hu, hr⟩
          rw [List.find?_cons_of_neg]
          · exact hfind
          · have hlt : strLt s.last_ts ts := hgt h2.1
            have hrts : strLt r.timestamp ts := strLt_of_le_of_lt h2.2 hlt
            simp only [decide_eq_true_eq]
            exact fun hc => absurd (hc ▸ hrts) (strLt_irrefl ts)
      · obtain ⟨lp, pj0, st0, hshape⟩ := loop_handle_shape env r rest s h1 h2 (hA s.idx)
        rw [hshape] at he
        rcases ih ⟨s.idx + 1, r.timestamp, true, lp,
            s.events ++ [.audit r.timestamp r.user_id r.raw_text pj0 st0]⟩ e he with
          h | ⟨ts, user, raw, pj, st, heq, hne, hgt, rr, hfind, hts, hu, hr⟩
        · rcases List.mem_append.mp h with h | h
          · exact Or.inl h
          · rw [List.mem_singleton] at h
            subst h
            refine Or.inr ⟨r.timestamp, r.user_id, r.raw_text, pj0, st0, rfl, h1, ?_, r,
              ?_, rfl, rfl, rfl⟩
            · intro hsl
              exact (gate_not_skip_iff.mp h2).resolve_left hsl
            · rw [List.find?_cons_of_pos]
              simp
        · have hrt : strLt r.timestamp ts := hgt h1
          refine Or.inr ⟨ts, user, raw, pj, st, heq, hne, ?_, rr, ?_, hts, hu, hr⟩
          · intro hsl
            have hsr : strLt s.last_ts r.timestamp :=
              (gate_not_skip_iff.mp h2).resolve_left hsl
            exact strLt_trans hsr hrt
          · rw [List.find?_cons_of_neg]
            · exact hfind
            · simp only [decide_eq_true_eq]
              exact fun hc => absurd (hc ▸ hrt) (strLt_irrefl ts)

/-- The sorted timestamp sequence depends only on the multiset of rows. -/
theorem sorted_map_ts_eq (rows rows2 : List RawRow) (hperm : rows2.Perm rows) :
    (rows2.insertionSort rowLe).map RawRow.timestamp
      = (rows.insertionSort rowLe).map RawRow.timestamp := by
  have hperm2 : ((rows2.insertionSort rowLe).map RawRow.timestamp).Perm
      ((rows.insertionSort rowLe).map RawRow.timestamp) :=
    ((List.perm_insertionSort rowLe rows2).trans
      (hperm.trans (List.perm_insertionSort rowLe rows).symm)).map RawRow.timestamp
  have hs2 : List.Sorted strLe ((rows2.insertionSort rowLe).map RawRow.timestamp) :=
    List.pairwise_map.mpr (List.sorted_insertionSort rowLe rows2)
  have hs1 : List.Sorted strLe ((rows.insertionSort rowLe).map RawRow.timestamp) :=
    List.pairwise_map.mpr (List.sorted_insertionSort rowLe rows)
  exact List.eq_of_perm_of_sorted hperm2 hs2 hs1

/-! ### Decoding the zero-padded serial -/

theorem ofDigits_replicate_zero : ∀ k : Nat, Nat.ofDigits 10 (List.replicate k 0) = 0
  | 0 => rfl
  | k + 1 => by
      rw [List.replicate_succ, Nat.ofDigits_cons, ofDigits_replicate_zero k]

theorem digitChar_decode {d : Nat} (hd : d < 10) : (Nat.digitChar d).toNat - 48 = d := by
  interval_cases d <;> rfl

theorem decode_decChars (n : Nat) :
    Nat.ofDigits 10 (((decChars n).map (fun c => c.toNat - 48)).reverse) = n := by
  by_cases h : n = 0
  · subst h; rfl
  · simp only [decChars, if_neg h]
    rw [List.map_reverse, List.reverse_reverse, List.map_map]
    have hcongr : (Nat.digits 10 n).map ((fun c => c.toNat - 48) ∘ Nat.digitChar)
        = Nat.digits 10 n := by
      have hid : ∀ d ∈ Nat.digits 10 n, ((fun c => c.toNat - 48) ∘ Nat.digitChar) d = d :=
        fun d hd => digitChar_decode (Nat.digits_lt_base (by norm_num) hd)
      rw [List.map_congr_left hid]; exact List.map_id' _
    rw [hcongr, Nat.ofDigits_digits]

theorem decode_pad3 (n : Nat) :
    Nat.ofDigits 10 (((pad3 n).data.map (fun c => c.toNat - 48)).reverse) = n := by
  show Nat.ofDigits 10
    (((List.replicate (3 - (decChars n).length) '0' ++ decChars n).map
        (fun c => c.toNat - 48)).reverse) = n
  rw [List.map_append, List.reverse_append, List.map_replicate]
  show Nat.ofDigits 10
    (((decChars n).map (fun c => c.toNat - 48)).reverse
      ++ (List.replicate (3 - (decChars n).length) 0).reverse) = n
  rw [List.reverse_replicate, Nat.ofDigits_append, decode_decChars,
    ofDigits_replicate_zero]
  simp

theorem pad3_inj {m n : Nat} (h : pad3 m = pad3 n) : m = n := by
  have hdec := congrArg
    (fun s : String => Nat.ofDigits 10 ((s.data.map (fun c => c.toNat - 48)).reverse)) h
  simpa [decode_pad3] using hdec

/-- User ids of the audit rows written, in write order. -/
def auditUsers (es : List Event) : List String :=
  es.filterMap fun e =>
    match e with
    | .audit _ user _ _ _ => some user
    | _ => none

/-- Workout dates of the header rows written, in write order. -/
def headerDates (es : List Event) : List String :=
  es.filterMap fun e =>
    match e with
    | .header _ (.obj fs) =>
      match lookupField fs "date" with
      | some (.str d) => some d
      | _ => none
    | _ => none

/-- Every audit row of a run belongs to the first row of the sorted batch
bearing its timestamp. -/
theorem main_first (env : Env) (hA : ∀ i, env.errAppendOk i = true) (c : String)
    (rows : List RawRow) :
    ∀ ts user raw pj st, Event.audit ts user raw pj st ∈ (pipelineMain env c rows).events →
      ∃ r, (rows.insertionSort rowLe).find? (fun x => decide (x.timestamp = ts)) = some r ∧
        r.timestamp = ts ∧ user = r.user_id ∧ raw = r.raw_text := by
  intro ts user raw pj st hmem
  obtain ⟨hc, _, _, _, _, _⟩ :=
    loop_spec env hA (rows.insertionSort rowLe) ⟨0, c, false, none, []⟩
  unfold pipelineMain at hmem
  dsimp only at hmem
  rw [hc] at hmem
  rcases List.mem_append.mp hmem with hmem1 | hmem2
  · have hloopmem : Event.audit ts user raw pj st ∈
        (loop env (rows.insertionSort rowLe) ⟨0, c, false, none, []⟩).1.events := by
      split at hmem1
      · rcases List.mem_append.mp hmem1 with h | h
        · exact h
        · rw [List.mem_singleton] at h
          cases h
      · exact hmem1
    rcases loop_first env hA _ _ _ hloopmem with h |
      ⟨ts', user', raw', pj', st', heq, hne, hgt, rr, hfind, hts, hu, hr⟩
    · simp at h
    · injection heq with e1 e2 e3 e4 e5
      subst e1; subst e2; subst e3
      exact ⟨rr, hfind, hts, hu, hr⟩
  · exfalso
    have hts2 : ts ∈ auditTimestamps (postBlock env
        (loop env (rows.insertionSort rowLe) ⟨0, c, false, none, []⟩).1.lastParsed).1 :=
      List.mem_filterMap.mpr ⟨_, hmem2, rfl⟩
    rw [postBlock_audits] at hts2
    simp at hts2

/-! ### Concrete fixtures for the closed runs -/

/-- A parser result of status `"ok"` for the given workout date. -/
def okParse (d : String) : Json :=
  .obj [("status", .str "ok"),
        ("workout", .obj [("date", .str d), ("type", .str "strength")]),
        ("activities", .arr [])]

/-- All external calls succeed; entry 0 parses to date 2024-05-05, the rest
to date 2024-05-06. -/
def envAllOk : Env :=
  { llm := fun i => .ok (some (okParse (if i = 0 then "2024-05-05" else "2024-05-06")))
    appendParsedFail := fun _ => none
    errAppendOk := fun _ => true
    count := fun _ => 0 }

/-- The model backend call always raises. -/
def envErr : Env :=
  { llm := fun _ => .error "boom"
    appendParsedFail := fun _ => none
    errAppendOk := fun _ => true
    count := fun _ => 0 }

def rowX : RawRow := ⟨"2024-05-05T10:00:00", "u1", "bench 3x8"⟩

def rowY : RawRow := ⟨"2024-05-06T11:00:00", "u2", "squat 5x5"⟩

def rowDup : RawRow := ⟨"2024-05-05T10:00:00", "u2", "deadlift"⟩

/-! ### The claims -/

/-- C1: the claim says every ok-status entry gets its workout header and
activity rows written while it is handled.  The code contradicts this: the
header/activity block sits after the per-entry loop (structure.py:206-215),
so in a run with two ok-status entries (dates 2024-05-05 and 2024-05-06)
two audit rows are written but only one header row, and that header carries
the last entry's workout date. -/
theorem C1_header_written_only_for_last :
    (auditTimestamps (pipelineMain envAllOk "" [rowX, rowY]).events).length = 2 ∧
    (headerIds (pipelineMain envAllOk "" [rowX, rowY]).events).length = 1 ∧
    headerDates (pipelineMain envAllOk "" [rowX, rowY]).events = ["2024-05-06"] := by
  decide

/-- C2: the claim says an empty fetch (or zero eligible entries) is a no-op
that terminates normally.  The code indeed writes nothing, leaves the
checkpoint alone and reports "nothing new", but then dereferences the
never-assigned `parsed_json` (structure.py:207) and crashes with a
`NameError` instead of terminating normally — both on an empty batch and
when every timestamp is at or below the checkpoint. -/
theorem C2_empty_run_crashes :
    (pipelineMain envAllOk "" []).events.length = 0 ∧
    (pipelineMain envAllOk "" []).report = "Nothing new to process." ∧
    (pipelineMain envAllOk "" []).crash = some .nameError ∧
    (pipelineMain envAllOk "2024-05-07T00:00:00" [rowX, rowY]).events.length = 0 ∧
    (pipelineMain envAllOk "2024-05-07T00:00:00" [rowX, rowY]).report
      = "Nothing new to process." ∧
    (pipelineMain envAllOk "2024-05-07T00:00:00" [rowX, rowY]).crash
      = some .nameError := by
  decide

/-- C3 (counterexample): with the empty checkpoint and two entries sharing
the timestamp 2024-05-05T10:00:00 — both strictly above the checkpoint —
only one audit row is written (for `u1`), so "handled iff timestamp exceeds
the checkpoint" is false as an iff over entries. -/
theorem C3_counterexample :
    strLt "" rowDup.timestamp ∧
    auditTimestamps (pipelineMain envAllOk "" [rowX, rowDup]).events
      = ["2024-05-05T10:00:00"] ∧
    auditUsers (pipelineMain envAllOk "" [rowX, rowDup]).events = ["u1"] := by
  decide

/-- C3 (amended): a timestamp `t` is handled (has an audit row) iff `t` is
non-empty, strictly exceeds the loaded checkpoint `c` under string
comparison (every non-empty timestamp when `c` is the default empty
string), and some fetched entry bears `t`; at most one entry per distinct
timestamp is handled; and re-running right after a run that persisted a
checkpoint, on the same batch, handles zero entries. -/
theorem C3_gate_characterization (env env2 : Env) (c : String) (rows : List RawRow)
    (hA : ∀ i, env.errAppendOk i = true) (hA2 : ∀ i, env2.errAppendOk i = true) :
    (∀ t, t ∈ auditTimestamps (pipelineMain env c rows).events ↔
      (t ≠ "" ∧ (c = "" ∨ strLt c t) ∧ ∃ r ∈ rows, r.timestamp = t)) ∧
    (auditTimestamps (pipelineMain env c rows).events).Nodup ∧
    (∀ v, v ∈ savedCheckpoints (pipelineMain env c rows).events →
      auditTimestamps (pipelineMain env2 v rows).events = []) := by
  obtain ⟨ha, hs, _⟩ := main_spec env hA c rows
  have hsorted : List.Pairwise strLe ((rows.insertionSort rowLe).map RawRow.timestamp) :=
    List.pairwise_map.mpr (List.sorted_insertionSort rowLe rows)
  refine ⟨?_, ?_, ?_⟩
  · intro t
    rw [ha, handledTs_mem_iff _ c t hsorted]
    constructor
    · rintro ⟨hne, hcv, hmem⟩
      obtain ⟨r, hr, hrt⟩ := List.mem_map.mp hmem
      exact ⟨hne, hcv, r, (List.perm_insertionSort rowLe rows).mem_iff.mp hr, hrt⟩
    · rintro ⟨hne, hcv, r, hr, hrt⟩
      exact ⟨hne, hcv, List.mem_map.mpr
        ⟨r, (List.perm_insertionSort rowLe rows).mem_iff.mpr hr, hrt⟩⟩
  · rw [ha]
    exact (handledTs_pairwise _ c).imp (fun h => strLt_ne h)
  · intro v hv
    rw [hs] at hv
    rcases hemp : (handledTs c ((rows.insertionSort rowLe).map RawRow.timestamp)).isEmpty
      with _ | _
    · rw [hemp] at hv
      rw [if_neg (by simp)] at hv
      rw [List.mem_singleton] at hv
      subst hv
      have hne : handledTs c ((rows.insertionSort rowLe).map RawRow.timestamp) ≠ [] := by
        intro h0
        rw [h0] at hemp
        cases hemp
      have hvmem := getLastD_mem _ c hne
      obtain ⟨hvne, hvgt⟩ := handledTs_mem_facts _ c _ hvmem
      obtain ⟨ha2, _, _⟩ := main_spec env2 hA2
        ((handledTs c ((rows.insertionSort rowLe).map RawRow.timestamp)).getLastD c) rows
      rw [ha2]
      apply handledTs_eq_nil
      intro t ht
      by_cases ht0 : t = ""
      · exact Or.inl ht0
      · refine Or.inr ⟨hvne, ?_⟩
        by_cases hel : c ≠ "" ∧ strLeB t c = true
        · exact strLe_of_lt (strLt_of_le_of_lt hel.2 (hvgt hel.1))
        · have htmem : t ∈ handledTs c ((rows.insertionSort rowLe).map RawRow.timestamp) := by
            rw [handledTs_mem_iff _ c t hsorted]
            exact ⟨ht0, gate_not_skip_iff.mp hel, ht⟩
          exact le_getLastD_of_pairwise _ c (handledTs_pairwise _ c) t htmem
    · rw [hemp] at hv
      rw [if_pos rfl] at hv
      simp at hv

/-- C3 (witness): the characterization instantiated on a concrete two-entry
batch, plus the concrete re-run after the saved checkpoint, which handles
zero entries. -/
theorem C3_gate_characterization_witness :
    ("2024-05-06T11:00:00" ∈ auditTimestamps (pipelineMain envAllOk "" [rowX, rowY]).events ↔
      ("2024-05-06T11:00:00" ≠ "" ∧ (("" : String) = "" ∨ strLt "" "2024-05-06T11:00:00") ∧
        ∃ r ∈ [rowX, rowY], r.timestamp = "2024-05-06T11:00:00")) ∧
    auditTimestamps (pipelineMain envAllOk "2024-05-06T11:00:00" [rowX, rowY]).events = [] := by
  refine ⟨(C3_gate_characterization envAllOk envAllOk "" [rowX, rowY]
    (fun _ => rfl) (fun _ => rfl)).1 _, ?_⟩
  exact (C3_gate_characterization envAllOk envAllOk "" [rowX, rowY]
    (fun _ => rfl) (fun _ => rfl)).2.2 "2024-05-06T11:00:00" (by decide)

/-- C4: the timestamps of the handled entries form a strictly ascending
sequence, and that sequence is the same for every permutation of the
fetched batch (and any outcomes of the external calls). -/
theorem C4_ordering_independent_of_fetch_order (env env2 : Env) (c : String)
    (rows rows2 : List RawRow)
    (hA : ∀ i, env.errAppendOk i = true) (hA2 : ∀ i, env2.errAppendOk i = true)
    (hperm : rows2.Perm rows) :
    List.Pairwise strLt (auditTimestamps (pipelineMain env c rows).events) ∧
    auditTimestamps (pipelineMain env2 c rows2).events
      = auditTimestamps (pipelineMain env c rows).events := by
  obtain ⟨ha, _, _⟩ := main_spec env hA c rows
  obtain ⟨ha2, _, _⟩ := main_spec env2 hA2 c rows2
  constructor
  · rw [ha]
    exact handledTs_pairwise _ c
  · rw [ha, ha2, sorted_map_ts_eq rows rows2 hperm]

/-- C4 (witness): the two-entry batch handled in ascending order, and the
swapped batch yielding the same handled timestamp sequence. -/
theorem C4_ordering_witness :
    List.Pairwise strLt (auditTimestamps (pipelineMain envAllOk "" [rowX, rowY]).events) ∧
    auditTimestamps (pipelineMain envAllOk "" [rowY, rowX]).events
      = auditTimestamps (pipelineMain envAllOk "" [rowX, rowY]).events :=
  C4_ordering_independent_of_fetch_order envAllOk envAllOk "" [rowX, rowY] [rowY, rowX]
    (fun _ => rfl) (fun _ => rfl) (List.Perm.swap rowX rowY [])

/-- C5: `make_workout_id` returns the date with dashes removed, a hyphen,
and the store count plus one zero-padded to width 3; consequently N
sequential allocations against an accurate per-date count give N pairwise
distinct ids. -/
theorem C5_alloc_sequential_distinct (D : String) (N i j : Nat)
    (hi : i < N) (hj : j < N) (hij : i ≠ j) :
    allocSeq D i ≠ allocSeq D j ∧
    allocSeq D i = removeDashes D ++ "-" ++ pad3 (i + 1) := by
  constructor
  · intro heq
    have hd := congrArg String.data heq
    simp only [allocSeq, make_workout_id, String.data_append] at hd
    have h3 : (pad3 (i + 1)).data = (pad3 (j + 1)).data :=
      List.append_cancel_left hd
    have h4 : i + 1 = j + 1 := pad3_inj (String.ext h3)
    omega
  · rfl

/-- C5 (witness): the first two allocations for 2024-05-05 are distinct and
the first has serial 001. -/
theorem C5_alloc_witness :
    allocSeq "2024-05-05" 0 ≠ allocSeq "2024-05-05" 1 ∧
    allocSeq "2024-05-05" 0 = removeDashes "2024-05-05" ++ "-" ++ pad3 1 :=
  C5_alloc_sequential_distinct "2024-05-05" 2 0 1 (by decide) (by decide) (by decide)

/-- C6: on a JSON object, parse returns the canonical re-serialization
together with the `status` field, defaulting an absent status to
`needs_review` (which differs from `ok`); on text that is not JSON, the
call fails with a parse error and returns nothing else. -/
theorem C6_parse_contract (fs : List (String × Json))
    (hst : lookupField fs "status" = none) :
    parse_with_llm none = Except.error "ParseError" ∧
    (∀ gs : List (String × Json), parse_with_llm (some (Json.obj gs))
        = Except.ok (Json.dumps (Json.obj gs),
            (lookupField gs "status").getD (Json.str "needs_review"))) ∧
    parse_with_llm (some (Json.obj fs))
        = Except.ok (Json.dumps (Json.obj fs), Json.str "needs_review") ∧
    Json.str "needs_review" ≠ Json.str "ok" := by
  refine ⟨rfl, fun gs => rfl, ?_, ?_⟩
  · simp [parse_with_llm, hst]
  · intro h
    exact absurd (Json.str.inj h) (by decide)

/-- C6 (witness): the contract at the empty object and at a missing-status
response. -/
theorem C6_parse_witness :
    parse_with_llm (some (Json.obj [])) = Except.ok (Json.dumps (Json.obj []),
      Json.str "needs_review") ∧
    parse_with_llm none = Except.error "ParseError" :=
  ⟨(C6_parse_contract [] rfl).2.2.1, (C6_parse_contract [] rfl).1⟩

/-- C7: when the parse of an eligible entry raises, or its audit append in
the try block raises after a successful parse, the driver catches the
exception, writes exactly one audit row with status `"error"` whose
payload is the serialized error message, advances the checkpoint candidate
to the entry's timestamp, and continues the loop with the remaining
entries. -/
theorem C7_per_entry_error_isolation (env : Env) (r : RawRow) (rest : List RawRow)
    (s : LoopState) (m : String)
    (h1 : r.timestamp ≠ "")
    (h2 : ¬(s.last_ts ≠ "" ∧ strLeB r.timestamp s.last_ts = true))
    (hE : env.errAppendOk s.idx = true) :
    (env.llm s.idx = .error m →
      loop env (r :: rest) s = loop env rest
        ⟨s.idx + 1, r.timestamp, true, s.lastParsed,
         s.events ++ [.audit r.timestamp r.user_id r.raw_text (errPayload m)
           (.str "error")]⟩) ∧
    (∀ fs, env.llm s.idx = .ok (some (.obj fs)) → env.appendParsedFail s.idx = some m →
      loop env (r :: rest) s = loop env rest
        ⟨s.idx + 1, r.timestamp, true, some (.obj fs),
         s.events ++ [.audit r.timestamp r.user_id r.raw_text (errPayload m)
           (.str "error")]⟩) := by
  constructor
  · intro hllm
    exact loop_handle_llmerr env r rest s m h1 h2 hllm hE
  · intro fs hllm happ
    exact loop_handle_appendFail env r rest s fs m h1 h2 hllm happ hE

/-- C7 (witness): a concrete entry whose backend call raises "boom" yields
exactly one error audit row and an advanced candidate. -/
theorem C7_error_isolation_witness :
    loop envErr [rowX] ⟨0, "", false, none, []⟩ = loop envErr []
      ⟨1, rowX.timestamp, true, none,
       [] ++ [.audit rowX.timestamp rowX.user_id rowX.raw_text (errPayload "boom")
         (.str "error")]⟩ :=
  (C7_per_entry_error_isolation envErr rowX [] ⟨0, "", false, none, []⟩ "boom"
    (by decide) (by decide) rfl).1 rfl

/-- C8: a run that completes its loop persists the checkpoint iff at
least one entry was handled: the persisted checkpoint values are exactly
the singleton holding the timestamp of the last handled entry when any
entry was handled, and nothing otherwise. -/
theorem C8_checkpoint_iff_handled (env : Env) (c : String) (rows : List RawRow)
    (hA : ∀ i, env.errAppendOk i = true) :
    (savedCheckpoints (pipelineMain env c rows).events ≠ [] ↔
      auditTimestamps (pipelineMain env c rows).events ≠ []) ∧
    savedCheckpoints (pipelineMain env c rows).events
      = (auditTimestamps (pipelineMain env c rows).events).getLast?.toList := by
  obtain ⟨ha, hs, _⟩ := main_spec env hA c rows
  rcases hemp : (handledTs c ((rows.insertionSort rowLe).map RawRow.timestamp)).isEmpty
    with _ | _
  · have hne : handledTs c ((rows.insertionSort rowLe).map RawRow.timestamp) ≠ [] := by
      intro h0
      rw [h0] at hemp
      cases hemp
    rw [ha, hs, hemp, if_neg (by simp), getLast?_eq_getLastD _ c hne]
    refine ⟨⟨fun _ => hne, fun _ => by simp⟩, rfl⟩
  · have hnil : handledTs c ((rows.insertionSort rowLe).map RawRow.timestamp) = [] := by
      cases hx : handledTs c ((rows.insertionSort rowLe).map RawRow.timestamp) with
      | nil => rfl
      | cons a l => rw [hx] at hemp; cases hemp
    rw [ha, hs, hemp, if_pos rfl, hnil]
    simp

/-- C8 (witness): two handled entries — checkpoint saved, equal to the last
handled timestamp. -/
theorem C8_checkpoint_witness :
    (savedCheckpoints (pipelineMain envAllOk "" [rowX, rowY]).events ≠ [] ↔
      auditTimestamps (pipelineMain envAllOk "" [rowX, rowY]).events ≠ []) ∧
    savedCheckpoints (pipelineMain envAllOk "" [rowX, rowY]).events
      = (auditTimestamps (pipelineMain envAllOk "" [rowX, rowY]).events).getLast?.toList :=
  C8_checkpoint_iff_handled envAllOk "" [rowX, rowY] (fun _ => rfl)

/-- C9: distinct audit rows never share a timestamp; the audit row written
for a timestamp belongs to the first entry of the sorted batch bearing it
(later equal-timestamp entries are skipped without any write); and any
persisted checkpoint value is one of the handled timestamps, so skipped
duplicates cannot affect it. -/
theorem C9_first_of_equal_timestamps (env : Env) (c : String) (rows : List RawRow)
    (hA : ∀ i, env.errAppendOk i = true) :
    (auditTimestamps (pipelineMain env c rows).events).Nodup ∧
    (∀ ts user raw pj st,
      Event.audit ts user raw pj st ∈ (pipelineMain env c rows).events →
      ∃ r, (rows.insertionSort rowLe).find? (fun x => decide (x.timestamp = ts)) = some r ∧
        r.timestamp = ts ∧ user = r.user_id ∧ raw = r.raw_text) ∧
    (∀ v, v ∈ savedCheckpoints (pipelineMain env c rows).events →
      v ∈ auditTimestamps (pipelineMain env c rows).events) := by
  obtain ⟨ha, hs, _⟩ := main_spec env hA c rows
  refine ⟨?_, main_first env hA c rows, ?_⟩
  · rw [ha]
    exact (handledTs_pairwise _ c).imp (fun h => strLt_ne h)
  · intro v hv
    rw [hs] at hv
    rcases hemp : (handledTs c ((rows.insertionSort rowLe).map RawRow.timestamp)).isEmpty
      with _ | _
    · rw [hemp] at hv
      rw [if_neg (by simp)] at hv
      rw [List.mem_singleton] at hv
      subst hv
      have hne : handledTs c ((rows.insertionSort rowLe).map RawRow.timestamp) ≠ [] := by
        intro h0
        rw [h0] at hemp
        cases hemp
      rw [ha]
      exact getLastD_mem _ c hne
    · rw [hemp] at hv
      rw [if_pos rfl] at hv
      simp at hv

/-- C9 (witness): on a duplicate-timestamp batch the audit timestamps are
duplicate-free and the saved checkpoint is a handled timestamp. -/
theorem C9_duplicates_witness :
    (auditTimestamps (pipelineMain envAllOk "" [rowX, rowDup]).events).Nodup ∧
    "2024-05-05T10:00:00" ∈ auditTimestamps (pipelineMain envAllOk "" [rowX, rowDup]).events :=
  ⟨(C9_first_of_equal_timestamps envAllOk "" [rowX, rowDup] (fun _ => rfl)).1,
   (C9_first_of_equal_timestamps envAllOk "" [rowX, rowDup] (fun _ => rfl)).2.2
     "2024-05-05T10:00:00" (by decide)⟩

/-- C10: every checkpoint value a run persists strictly exceeds the
checkpoint value that was loaded at the start of the run, under string
comparison. -/
theorem C10_checkpoint_strictly_increases (env : Env) (c : String) (rows : List RawRow)
    (hA : ∀ i, env.errAppendOk i = true) (v : String)
    (hv : v ∈ savedCheckpoints (pipelineMain env c rows).events) :
    strLt c v := by
  obtain ⟨_, hs, _⟩ := main_spec env hA c rows
  rw [hs] at hv
  rcases hemp : (handledTs c ((rows.insertionSort rowLe).map RawRow.timestamp)).isEmpty
    with _ | _
  · rw [hemp] at hv
    rw [if_neg (by simp)] at hv
    rw [List.mem_singleton] at hv
    subst hv
    have hne : handledTs c ((rows.insertionSort rowLe).map RawRow.timestamp) ≠ [] := by
      intro h0
      rw [h0] at hemp
      cases hemp
    obtain ⟨hvne, hvgt⟩ := handledTs_mem_facts _ c _ (getLastD_mem _ c hne)
    by_cases hc : c = ""
    · subst hc
      exact empty_strLt hvne
    · exact hvgt hc
  · rw [hemp] at hv
    rw [if_pos rfl] at hv
    simp at hv

/-- C10 (witness): the concrete saved checkpoint strictly exceeds the
loaded empty checkpoint. -/
theorem C10_checkpoint_witness : strLt "" "2024-05-06T11:00:00" :=
  C10_checkpoint_strictly_increases envAllOk "" [rowX, rowY] (fun _ => rfl)
    "2024-05-06T11:00:00" (by decide)
